import Mathlib

/-!
Verification of the rs-gfa core: the SAM-style optional-field codec
(src/optfields.rs), the line-grammar parser (src/parser.rs) and the
writer (src/writer.rs).  Byte strings are modelled as List Nat (each
element an octet value).  Rust panics (slice-index out of bounds,
assert failures, the unreachable match arm) are modelled explicitly by
the PResult type so that claims about totality and dead code can be
stated faithfully.
-/

namespace RsGfa

/-- Kinds of panic the translated code can raise: a slice index out of
bounds, a failed assert in OptField::tag, and the supposedly dead
unknown-type-byte arm of the dispatch in OptField::parse. -/
inductive PanicKind where
  | index
  | tagAssert
  | unknownType
deriving DecidableEq

/-- Result of running fallible code that may also panic. -/
inductive PResult (α : Type) where
  | ok (a : α)
  | panic (k : PanicKind)
deriving DecidableEq

def PResult.map {α β : Type} (f : α → β) : PResult α → PResult β
  | .ok a => .ok (f a)
  | .panic k => .panic k

def PResult.isOk {α : Type} : PResult α → Bool
  | .ok _ => true
  | .panic _ => false

/-- An f32 payload, represented by the literal bytes it was parsed
from.  Floating-point value semantics (rounding, formatting) are left
uninterpreted; no claim settled here depends on them. -/
structure F32 where
  lit : List Nat
deriving DecidableEq

/-- OptFieldVal from src/optfields.rs: the eight SAM optional-field
value variants.  H holds Vec of u32 (nibble values when produced by
the parser), BInt holds i64 elements, BFloat f32 elements. -/
inductive OptFieldVal where
  | A (c : Nat)
  | Int (i : Int)
  | Float (x : F32)
  | Z (s : List Nat)
  | J (s : List Nat)
  | H (xs : List Nat)
  | BInt (xs : List Int)
  | BFloat (xs : List F32)
deriving DecidableEq

/-- OptField from src/optfields.rs: a two-byte tag plus a value. -/
structure OptField where
  tag : Nat × Nat
  value : OptFieldVal
deriving DecidableEq

-- Byte-class predicates used by the compiled regexes of optfields.rs.

def isDigit (c : Nat) : Bool := 48 ≤ c ∧ c ≤ 57

def isAlpha (c : Nat) : Bool := (65 ≤ c ∧ c ≤ 90) ∨ (97 ≤ c ∧ c ≤ 122)

def isAlphaNum (c : Nat) : Bool := isAlpha c ∨ isDigit c

/-- The class of RE_CHAR, bytes 0x21 to 0x7E. -/
def isPrintable (c : Nat) : Bool := 33 ≤ c ∧ c ≤ 126

/-- The class of RE_STRING, bytes 0x20 to 0x7E. -/
def isPrintSpace (c : Nat) : Bool := 32 ≤ c ∧ c ≤ 126

/-- The class of RE_BYTES, digits and uppercase A to F. -/
def isHexUpper (c : Nat) : Bool := isDigit c ∨ (65 ≤ c ∧ c ≤ 70)

/-- char::to_digit(16) on a byte already known to be in 0-9 or A-F. -/
def hexDigitVal (c : Nat) : Nat := if c ≤ 57 then c - 48 else c - 55

/-- OptField::tag from src/optfields.rs: asserts the tag is exactly two
bytes, the first alphabetic and the second alphanumeric, and returns
the two bytes unchanged; a failed assert is a panic. -/
def OptField.tagR (t : List Nat) : PResult (Nat × Nat) :=
  match t with
  | [a, b] =>
    if isAlpha a then
      if isAlphaNum b then .ok (a, b) else .panic .tagAssert
    else .panic .tagAssert
  | _ => .panic .tagAssert

/-- OptField::new from src/optfields.rs: validates the tag via
OptField::tag, then pairs it with the value. -/
def OptField.newR (t : List Nat) (v : OptFieldVal) : PResult OptField :=
  (OptField.tagR t).map (fun tg => ⟨tg, v⟩)

/-- Unanchored find of a character-class run regex (leftmost match,
greedy): used for RE_STRING and RE_BYTES. -/
def runFind (p : Nat → Bool) : List Nat → Option (List Nat)
  | [] => none
  | c :: rest => if p c then some (c :: rest.takeWhile p) else runFind p rest

/-- RE_CHAR.find followed by taking the first byte of the match: the
pattern is a single byte in 0x21-0x7E, so this is the first printable
byte of the input. -/
def reCharFind (s : List Nat) : Option Nat := s.find? isPrintable

/-- RE_STRING.find: leftmost longest run of bytes in 0x20-0x7E. -/
def reStringFind : List Nat → Option (List Nat) := runFind isPrintSpace

/-- RE_BYTES.find: leftmost longest run of uppercase hex digits. -/
def reBytesFind : List Nat → Option (List Nat) := runFind isHexUpper

/-- RE_INT.find: leftmost match of sign? digits+, greedy. -/
def reIntFind : List Nat → Option (List Nat)
  | [] => none
  | c :: rest =>
    if isDigit c then some (c :: rest.takeWhile isDigit)
    else
      if (c = 43 || c = 45) && (match rest with
          | d :: _ => isDigit d
          | [] => false) then
        some (c :: rest.takeWhile isDigit)
      else reIntFind rest

/-- Digits to the natural number they denote in base 10. -/
def natOfDigits (ds : List Nat) : Nat := ds.foldl (fun a c => 10 * a + (c - 48)) 0

/-- i64::from_str: optional sign, one or more digits, nothing else,
with a two-sided 64-bit range check. -/
def parseI64 (s : List Nat) : Option Int :=
  match s with
  | [] => none
  | c :: rest =>
    let neg : Bool := c = 45
    let ds : List Nat := if c = 45 ∨ c = 43 then rest else s
    if ds = [] then none
    else if ds.all isDigit then
      let n : Nat := natOfDigits ds
      if neg then
        if n ≤ 2 ^ 63 then some (-(n : Int)) else none
      else
        if n ≤ 2 ^ 63 - 1 then some (n : Int) else none
    else none

/-- Matching core of RE_FLOAT at a fixed position: digits* dot? digits+
with the backtracking the regex engine performs; returns the matched
bytes and the remaining input. -/
def floatCore (t : List Nat) : Option (List Nat × List Nat) :=
  let d1 := t.takeWhile isDigit
  let t1 := t.drop d1.length
  match t1 with
  | 46 :: u =>
    let d2 := u.takeWhile isDigit
    if d2 ≠ [] then some (d1 ++ 46 :: d2, u.drop d2.length)
    else if d1 ≠ [] then some (d1, t1)
    else none
  | _ => if d1 ≠ [] then some (d1, t1) else none

/-- Optional exponent part of RE_FLOAT after a matched mantissa:
extends the match when an e or E followed by sign? digits+ is present,
otherwise keeps the mantissa match. -/
def floatExp (m : List Nat) (r : List Nat) : List Nat :=
  match r with
  | e :: r2 =>
    if e = 101 ∨ e = 69 then
      match r2 with
      | s2 :: r3 =>
        if isDigit s2 then m ++ e :: s2 :: r3.takeWhile isDigit
        else
          if s2 = 43 ∨ s2 = 45 then
            match r3 with
            | d :: _ =>
              if isDigit d then m ++ e :: s2 :: r3.takeWhile isDigit else m
            | [] => m
          else m
      | [] => m
    else m
  | [] => m

/-- RE_FLOAT match attempt at one position: sign? digits* dot? digits+
exponent?. -/
def floatMatchAt (t : List Nat) : Option (List Nat) :=
  match t with
  | c :: rest =>
    if c = 43 ∨ c = 45 then
      match floatCore rest with
      | some (m, r) => some (floatExp (c :: m) r)
      | none => none
    else
      match floatCore t with
      | some (m, r) => some (floatExp m r)
      | none => none
  | [] => none

/-- RE_FLOAT.find: try the float pattern at each position left to
right. -/
def reFloatFind : List Nat → Option (List Nat)
  | [] => none
  | c :: rest =>
    match floatMatchAt (c :: rest) with
    | some m => some m
    | none => reFloatFind rest

def toLowerByte (c : Nat) : Nat := if 65 ≤ c ∧ c ≤ 90 then c + 32 else c

/-- Optional exponent suffix of the f32::from_str grammar: empty, or e
or E with optional sign and at least one digit, consuming the whole
rest. -/
def f32ExpOrEmpty (r : List Nat) : Bool :=
  match r with
  | [] => true
  | e :: u =>
    (e = 101 || e = 69) &&
      (match u with
       | c :: v =>
         if c = 43 || c = 45 then
           !v.isEmpty && v.all isDigit
         else !u.isEmpty && u.all isDigit
       | [] => false)

/-- Number production of the f32::from_str grammar: digits+ (dot
digits*)? exp?  or dot digits+ exp?. -/
def f32Number (t : List Nat) : Bool :=
  match t with
  | 46 :: u =>
    let d := u.takeWhile isDigit
    !d.isEmpty && f32ExpOrEmpty (u.drop d.length)
  | _ =>
    let d := t.takeWhile isDigit
    if d.isEmpty then false
    else
      match t.drop d.length with
      | 46 :: u =>
        let d2 := u.takeWhile isDigit
        f32ExpOrEmpty (u.drop d2.length)
      | r => f32ExpOrEmpty r

/-- f32::from_str: sign? (inf, infinity or nan, case-insensitive, or a
number).  Successful parses are recorded as the literal itself. -/
def parseF32 (s : List Nat) : Option F32 :=
  match s with
  | [] => none
  | c :: rest =>
    let t := if c = 43 ∨ c = 45 then rest else s
    let lower := t.map toLowerByte
    if lower = [105, 110, 102] ∨ lower = [105, 110, 102, 105, 110, 105, 116, 121] ∨
        lower = [110, 97, 110] then some ⟨s⟩
    else if f32Number t then some ⟨s⟩
    else none

/-- bstr split_str: split on a separator byte; the empty input yields
one empty piece, and the result is never the empty list. -/
def splitOnByte (sep : Nat) : List Nat → List (List Nat)
  | [] => [[]]
  | c :: rest =>
    if c = sep then [] :: splitOnByte sep rest
    else
      match splitOnByte sep rest with
      | t :: ts => (c :: t) :: ts
      | [] => [[c]]

/-- The value dispatch of OptField::parse: the match on the type byte
that produces the optional value.  The B arm indexes the first content
byte, which panics on an empty value payload; the default arm is the
unconditional unknown-type panic of the source.  The from_utf8 checks
inside the i, f and B arms are subsumed by the digit and float-literal
checks, which reject any non-ASCII byte. -/
def dispatchVal (o_type : Nat) (o_contents : List Nat) : PResult (Option OptFieldVal) :=
  match o_type with
  | 65 => .ok ((reCharFind o_contents).map .A)
  | 105 => .ok (((reIntFind o_contents).bind parseI64).map .Int)
  | 102 => .ok ((reFloatFind o_contents).map (fun s => .Float ⟨s⟩))
  | 90 => .ok ((reStringFind o_contents).map .Z)
  | 74 => .ok ((reStringFind o_contents).map .J)
  | 72 => .ok ((reBytesFind o_contents).map (fun s => .H (s.map hexDigitVal)))
  | 66 =>
    match o_contents with
    | [] => .panic .index
    | first :: rest =>
      let toks := splitOnByte 44 rest
      if first = 102 then .ok (some (.BFloat (toks.filterMap parseF32)))
      else .ok (some (.BInt (toks.filterMap parseI64)))
  | _ => .panic .unknownType

/-- The tail of OptField::parse after the value dispatch: the question
mark on the optional value followed by Self::new on the tag slice. -/
def parseFinish (o_tag : List Nat) (o_val : PResult (Option OptFieldVal)) :
    PResult (Option OptField) :=
  match o_val with
  | .panic k => .panic k
  | .ok none => .ok none
  | .ok (some v) => (OptField.newR o_tag v).map some

/-- OptField::parse from src/optfields.rs, panics modelled explicitly:
reads the tag from bytes 0-1, the type byte at index 3 and the value
from byte 5 on (the separator bytes at indices 2 and 4 are never
inspected); dispatches on the type byte after the membership check,
then builds the field with OptField::new, which panics on an invalid
tag. -/
def OptField.parseR (input : List Nat) : PResult (Option OptField) :=
  if input.length < 2 then .ok none
  else
    let o_tag := input.take 2
    match input.get? 3 with
    | none => .ok none
    | some o_type =>
      if o_type ∈ [65, 105, 102, 90, 74, 72, 66] then
        if input.length < 5 then .ok none
        else parseFinish o_tag (dispatchVal o_type (input.drop 5))
      else .ok none

-- The Display implementation of optfields.rs (the encoder half of the
-- codec).

/-- Decimal digits, most significant first; structural recursion on a
fuel argument so the definition reduces inside the kernel. -/
def natToDecAux : Nat → Nat → List Nat
  | _, 0 => []
  | n, fuel + 1 =>
    if n < 10 then [48 + n] else natToDecAux (n / 10) fuel ++ [48 + n % 10]

/-- Decimal digits of a natural number, most significant first. -/
def natToDec (n : Nat) : List Nat := natToDecAux n (n + 1)

/-- i64 Display: minus sign for negatives, then decimal digits. -/
def intDisplay (i : Int) : List Nat :=
  if i < 0 then 45 :: natToDec i.natAbs else natToDec i.natAbs

/-- Lowercase hex digits, most significant first, fuel-structured. -/
def natToHexLowerAux : Nat → Nat → List Nat
  | _, 0 => []
  | n, fuel + 1 =>
    if n < 16 then [if n < 10 then 48 + n else 87 + n]
    else natToHexLowerAux (n / 16) fuel ++ [if n % 16 < 10 then 48 + n % 16 else 87 + n % 16]

/-- Lowercase hex rendering of a u32, as the x format specifier
produces. -/
def natToHexLower (n : Nat) : List Nat := natToHexLowerAux n (n + 1)

/-- Outcome of running the Display implementation: the produced bytes,
a panic from indexing x[0] of an empty array, or a rendering that
passes through f32 formatting, which this model leaves
uninterpreted. -/
inductive DisplayResult where
  | out (s : List Nat)
  | panicIdx
  | floatFmt
deriving DecidableEq

/-- Display for OptField from src/optfields.rs: TAG colon TYPE colon
VALUE.  H values are written with the lowercase x hex specifier; B
arrays start with the uppercase sub-type marker I or F, then the first
element unprefixed and the rest comma-prefixed; an empty B array
panics on x[0]. -/
def OptField.encodeR (f : OptField) : DisplayResult :=
  let pre : List Nat := [f.tag.1, f.tag.2, 58]
  match f.value with
  | .A x => .out (pre ++ [65, 58, x])
  | .Int x => .out (pre ++ [105, 58] ++ intDisplay x)
  | .Float _ => .floatFmt
  | .Z s => .out (pre ++ [90, 58] ++ s)
  | .J s => .out (pre ++ [74, 58] ++ s)
  | .H xs => .out (pre ++ [72, 58] ++ (xs.map natToHexLower).flatten)
  | .BInt xs =>
    match xs with
    | [] => .panicIdx
    | x :: r =>
      .out (pre ++ [66, 58, 73] ++ intDisplay x ++ (r.map (fun a => 44 :: intDisplay a)).flatten)
  | .BFloat xs =>
    match xs with
    | [] => .panicIdx
    | _ :: _ => .floatFmt

-- The field-storage capability, instantiated at the materializing
-- ordered store (impl OptFields for Vec of OptField).

/-- OptFields parse for Vec of OptField from src/optfields.rs:
filter_map of OptField::parse over the tokens; a panic raised while
decoding a token aborts the whole collection. -/
def optFieldsParseR : List (List Nat) → PResult (List OptField)
  | [] => .ok []
  | t :: rest =>
    match OptField.parseR t with
    | .panic k => .panic k
    | .ok o =>
      (optFieldsParseR rest).map (fun l =>
        match o with
        | some f => f :: l
        | none => l)

/-- The value OptField::parse contributes to the collection when it
does not panic: the decoded field, or nothing. -/
def decodeOpt (t : List Nat) : Option OptField :=
  match OptField.parseR t with
  | .ok o => o
  | .panic _ => none

-- The record types of the line grammars (parser.rs).  The parser is
-- generic over the storage capability; it is instantiated here at the
-- ordered store, so the optional slot is a list of fields.

/-- Modelled from the spec: Orientation and its from_bytes conversion
live in gfa.rs, which is absent from src; the spec fixes the textual
forms to exactly a plus or minus sign. -/
inductive Orientation where
  | forward
  | backward
deriving DecidableEq

/-- Modelled from the spec: Orientation::from_bytes accepts exactly
the one-byte token plus or minus. -/
def orientationFromBytes : List Nat → Option Orientation
  | [43] => some .forward
  | [45] => some .backward
  | _ => none

structure Header where
  version : Option (List Nat)
  optional : List OptField
deriving DecidableEq

structure Segment where
  name : List Nat
  sequence : List Nat
  optional : List OptField
deriving DecidableEq

structure Link where
  fromSegment : List Nat
  fromOrient : Orientation
  toSegment : List Nat
  toOrient : Orientation
  overlap : List Nat
  optional : List OptField
deriving DecidableEq

structure Containment where
  containerName : List Nat
  containerOrient : Orientation
  containedName : List Nat
  containedOrient : Orientation
  overlap : List Nat
  pos : Nat
  optional : List OptField
deriving DecidableEq

structure GfaPath where
  pathName : List Nat
  segmentNames : List Nat
  overlaps : List (List Nat)
  optional : List OptField
deriving DecidableEq

inductive Line where
  | header (h : Header)
  | segment (s : Segment)
  | link (l : Link)
  | containment (c : Containment)
  | path (p : GfaPath)
deriving DecidableEq

/-- The compiled name regex of parse_name: first byte in 0x21-0x29,
0x2B-0x3C or 0x3E-0x7E. -/
def nameStartB (c : Nat) : Bool :=
  (33 ≤ c ∧ c ≤ 41) ∨ (43 ≤ c ∧ c ≤ 60) ∨ (62 ≤ c ∧ c ≤ 126)

/-- Unanchored find of the name regex: leftmost byte in the start
class, then the greedy run of printable bytes. -/
def reNameFind : List Nat → Option (List Nat)
  | [] => none
  | c :: rest =>
    if nameStartB c then some (c :: rest.takeWhile isPrintable)
    else reNameFind rest

/-- The letter, equals sign and dot alphabet of the sequence regex. -/
def seqCharB (c : Nat) : Bool := isAlpha c ∨ c = 61 ∨ c = 46

/-- Unanchored find of the sequence regex: at the leftmost matching
position, the star alternative is tried first and matches one byte,
otherwise the greedy alphabet run. -/
def reSeqFind : List Nat → Option (List Nat)
  | [] => none
  | c :: rest =>
    if c = 42 then some [42]
    else if seqCharB c then some (c :: rest.takeWhile seqCharB)
    else reSeqFind rest

/-- parse_name from src/parser.rs at the token level: take the next
token and find the name regex in it; failure when the tokens are
exhausted or no substring matches. -/
def parse_name (input : List (List Nat)) : Option (List Nat × List (List Nat)) :=
  match input with
  | [] => none
  | t :: rest => (reNameFind t).map (fun n => (n, rest))

/-- parse_sequence from src/parser.rs at the token level. -/
def parse_sequence (input : List (List Nat)) : Option (List Nat × List (List Nat)) :=
  match input with
  | [] => none
  | t :: rest => (reSeqFind t).map (fun n => (n, rest))

/-- usize::from_str for the containment position.  Modelled from the
spec for the width: the pos field type lives in gfa.rs, absent from
src; the spec calls it a non-negative machine integer, taken here as
64 bits. -/
def parseUsize (s : List Nat) : Option Nat :=
  match s with
  | [] => none
  | c :: rest =>
    let ds := if c = 43 then rest else s
    if ds.isEmpty then none
    else if ds.all isDigit then
      let n := natOfDigits ds
      if n < 2 ^ 64 then some n else none
    else none

/-- ParseGFA for Header from src/parser.rs: the first token must
decode as an optional field; the remaining tokens populate the
optional store; the header is produced only when the decoded value is
the Z variant, whose payload becomes the version. -/
def headerParseR (input : List (List Nat)) : PResult (Option Header) :=
  match input with
  | [] => .ok none
  | t :: rest =>
    match OptField.parseR t with
    | .panic k => .panic k
    | .ok none => .ok none
    | .ok (some version) =>
      match optFieldsParseR rest with
      | .panic k => .panic k
      | .ok optional =>
        match version.value with
        | .Z v => .ok (some ⟨some v, optional⟩)
        | _ => .ok none

/-- ParseGFA for Segment from src/parser.rs. -/
def segmentParseR (input : List (List Nat)) : PResult (Option Segment) :=
  match parse_name input with
  | none => .ok none
  | some (name, i1) =>
    match parse_sequence i1 with
    | none => .ok none
    | some (sequence, i2) =>
      (optFieldsParseR i2).map (fun optional => some ⟨name, sequence, optional⟩)

/-- ParseGFA for Link from src/parser.rs. -/
def linkParseR (input : List (List Nat)) : PResult (Option Link) :=
  match parse_name input with
  | none => .ok none
  | some (fromSegment, i1) =>
    match i1 with
    | [] => .ok none
    | t1 :: i2 =>
      match orientationFromBytes t1 with
      | none => .ok none
      | some fromOrient =>
        match parse_name i2 with
        | none => .ok none
        | some (toSegment, i3) =>
          match i3 with
          | [] => .ok none
          | t2 :: i4 =>
            match orientationFromBytes t2 with
            | none => .ok none
            | some toOrient =>
              match i4 with
              | [] => .ok none
              | overlap :: i5 =>
                (optFieldsParseR i5).map (fun optional =>
                  some ⟨fromSegment, fromOrient, toSegment, toOrient, overlap, optional⟩)

/-- ParseGFA for Containment from src/parser.rs. -/
def containmentParseR (input : List (List Nat)) : PResult (Option Containment) :=
  match parse_name input with
  | none => .ok none
  | some (containerName, i1) =>
    match i1 with
    | [] => .ok none
    | t1 :: i2 =>
      match orientationFromBytes t1 with
      | none => .ok none
      | some containerOrient =>
        match parse_name i2 with
        | none => .ok none
        | some (containedName, i3) =>
          match i3 with
          | [] => .ok none
          | t2 :: i4 =>
            match orientationFromBytes t2 with
            | none => .ok none
            | some containedOrient =>
              match i4 with
              | [] => .ok none
              | posTok :: i5 =>
                match parseUsize posTok with
                | none => .ok none
                | some pos =>
                  match i5 with
                  | [] => .ok none
                  | overlap :: i6 =>
                    (optFieldsParseR i6).map (fun optional =>
                      some ⟨containerName, containerOrient, containedName,
                        containedOrient, overlap, pos, optional⟩)

/-- ParseGFA for Path from src/parser.rs: the name token, the verbatim
segment-names token, the overlaps token split on commas, then the
optional store. -/
def pathParseR (input : List (List Nat)) : PResult (Option GfaPath) :=
  match parse_name input with
  | none => .ok none
  | some (pathName, i1) =>
    match i1 with
    | [] => .ok none
    | segmentNames :: i2 =>
      match i2 with
      | [] => .ok none
      | overlapsTok :: i3 =>
        let overlaps := splitOnByte 44 overlapsTok
        (optFieldsParseR i3).map (fun optional =>
          some ⟨pathName, segmentNames, overlaps, optional⟩)

/-- GFAParsingConfig from src/parser.rs. -/
structure GFAParsingConfig where
  segments : Bool
  links : Bool
  containments : Bool
  paths : Bool
deriving DecidableEq

def GFAParsingConfig.all : GFAParsingConfig := ⟨true, true, true, true⟩

/-- The filter string built by make_filter: always H, then the marker
byte of each enabled line kind. -/
def filterString (cfg : GFAParsingConfig) : List Nat :=
  [72] ++ (if cfg.segments then [83] else []) ++ (if cfg.links then [76] else [])
    ++ (if cfg.containments then [67] else []) ++ (if cfg.paths then [80] else [])

/-- The filter closure of make_filter: slices the first byte of the
line, which panics on an empty line, and passes the line through when
that byte occurs in the filter string. -/
def filterLineR (cfg : GFAParsingConfig) (line : List Nat) : PResult (Option (List Nat)) :=
  match line with
  | [] => .panic .index
  | c :: _ => if c ∈ filterString cfg then .ok (some line) else .ok none

/-- GFAParser::parse_line from src/parser.rs: filter the line, split
it on tabs, and dispatch on the full first field. -/
def parseLineR (cfg : GFAParsingConfig) (line : List Nat) : PResult (Option Line) :=
  match filterLineR cfg line with
  | .panic k => .panic k
  | .ok none => .ok none
  | .ok (some l) =>
    match splitOnByte 9 l with
    | [] => .ok none
    | hdr :: rest =>
      if hdr = [72] then (headerParseR rest).map (Option.map .header)
      else if hdr = [83] then (segmentParseR rest).map (Option.map .segment)
      else if hdr = [76] then (linkParseR rest).map (Option.map .link)
      else if hdr = [67] then (containmentParseR rest).map (Option.map .containment)
      else if hdr = [80] then (pathParseR rest).map (Option.map .path)
      else .ok none

/-- Modelled from the spec: the GFA aggregate and insert_line live in
gfa.rs, absent from src; the spec describes a thin collection of
vectors that accumulates parsed lines. -/
structure GFA where
  header : Option Header
  segments : List Segment
  links : List Link
  containments : List Containment
  paths : List GfaPath
deriving DecidableEq

def GFA.new : GFA := ⟨none, [], [], [], []⟩

/-- Modelled from the spec: insert_line stores each parsed record in
the aggregate slot of its kind. -/
def GFA.insertLine (g : GFA) : Line → GFA
  | .header h => { g with header := some h }
  | .segment s => { g with segments := g.segments ++ [s] }
  | .link l => { g with links := g.links ++ [l] }
  | .containment c => { g with containments := g.containments ++ [c] }
  | .path p => { g with paths := g.paths ++ [p] }

/-- Loop body of GFAParser::parse_all: parse each line, insert the
produced records, skip lines producing nothing; a panic raised on any
line aborts the whole run. -/
def parseAllGo (cfg : GFAParsingConfig) (g : GFA) : List (List Nat) → PResult GFA
  | [] => .ok g
  | line :: rest =>
    match parseLineR cfg line with
    | .panic k => .panic k
    | .ok none => parseAllGo cfg g rest
    | .ok (some l) => parseAllGo cfg (g.insertLine l) rest

/-- GFAParser::parse_all from src/parser.rs: fold the lines into a
fresh GFA aggregate. -/
def parseAllR (cfg : GFAParsingConfig) (input : List (List Nat)) : PResult GFA :=
  parseAllGo cfg GFA.new input

/-- write_header from src/writer.rs: the marker byte H, then a tab and
the VN version token when a version is present, and nothing else
otherwise. -/
def writeHeader : Option (List Nat) → List Nat
  | some v => [72, 9, 86, 78, 58, 90, 58] ++ v
  | none => [72]

/-- The well-formedness condition of the tag invariant: exactly two
bytes, the first alphabetic, the second alphanumeric. -/
def validTagBytes (t : List Nat) : Bool :=
  match t with
  | [a, b] => isAlpha a && isAlphaNum b
  | _ => false

-- Helper lemmas.

theorem takeWhile_of_all {p : Nat → Bool} (l : List Nat) (h : ∀ b ∈ l, p b = true) :
    l.takeWhile p = l :=
  List.takeWhile_eq_self_iff.mpr h

theorem optFieldsParseR_eq_of_no_panic (toks : List (List Nat))
    (h : ∀ t ∈ toks, (OptField.parseR t).isOk = true) :
    optFieldsParseR toks = .ok (toks.filterMap decodeOpt) := by
  induction toks with
  | nil => rfl
  | cons t rest ih =>
    have h1 := h t (List.mem_cons_self t rest)
    have hrest : ∀ x ∈ rest, (OptField.parseR x).isOk = true :=
      fun x hx => h x (List.mem_cons_of_mem _ hx)
    cases hp : OptField.parseR t with
    | panic k => rw [hp] at h1; simp [PResult.isOk] at h1
    | ok o =>
      cases o with
      | none =>
        simp [optFieldsParseR, hp, ih hrest, PResult.map, List.filterMap_cons, decodeOpt]
      | some f =>
        simp [optFieldsParseR, hp, ih hrest, PResult.map, List.filterMap_cons, decodeOpt]

/-- Claim C1, refuted at a concrete constructible field: the value
H [10] (a single hex nibble with value ten, producible by decoding
AB:H:A) is rendered by the Display implementation with the lowercase
hex specifier as the bytes of AB:H:a, and re-parsing those bytes
yields no field at all because RE_BYTES only accepts digits and
uppercase A-F; so decode (encode v) is not Some v. -/
theorem c1_hex_roundtrip_fails :
    OptField.encodeR ⟨(65, 66), .H [10]⟩ = .out [65, 66, 58, 72, 58, 97]
      ∧ OptField.parseR [65, 66, 58, 72, 58, 97] = .ok none := by
  decide

/-- Claim C2, refuted at a concrete constructible record: the header
record with no version is written by write_header as the single byte
H, and re-parsing that line with the dispatcher produces no record at
all rather than the original header, so parse (write r) differs from
r. -/
theorem c2_header_roundtrip_fails :
    writeHeader none = [72] ∧ parseLineR .all (writeHeader none) = .ok none := by
  decide

/-- Claim C3, refuted at concrete inputs: OptField::parse is not
panic-free.  On the bytes of AB:B: (valid type byte B, empty value
payload) it indexes the first byte of an empty slice and panics, and
on the bytes of 1B:i:5 (tag starting with a digit, decodable value)
the assert inside OptField::tag panics; the claim says both must
yield None. -/
theorem c3_decode_panics :
    OptField.parseR [65, 66, 58, 66, 58] = .panic .index
      ∧ OptField.parseR [49, 66, 58, 105, 58, 53] = .panic .tagAssert := by
  decide

/-- Claim C4, refuted at a concrete input: the line filter compiled by
make_filter slices the first byte of each line, so parse_line panics
on an empty input line, and parse_all panics on any stream containing
an empty line, instead of silently skipping it. -/
theorem c4_empty_line_panics :
    parseLineR .all [] = .panic .index ∧ parseAllR .all [[]] = .panic .index := by
  decide

/-- Claim C5, counterexample: a header whose single token carries the
tag AB, not the version tag VN, still parses successfully into a
header whose version is the token payload, so header parsing does not
require the token to be tagged for version. -/
theorem c5_counterexample :
    headerParseR [[65, 66, 58, 90, 58, 120]] = .ok (some ⟨some [120], []⟩)
      ∧ [65, 66] ≠ [86, 78] := by
  decide

/-- Claim C6, counterexample: the fixed fields 11 and ACCT parse fine
on their own, but adding the malformed trailing token AB:B: makes the
whole segment parse panic instead of parsing with that token
dropped. -/
theorem c6_counterexample :
    segmentParseR [[49, 49], [65, 67, 67, 84]]
        = .ok (some ⟨[49, 49], [65, 67, 67, 84], []⟩)
      ∧ segmentParseR [[49, 49], [65, 67, 67, 84], [65, 66, 58, 66, 58]]
        = .panic .index := by
  decide

/-- Claim C6 as amended: for a record line whose fixed fields are
valid, provided no trailing token drives the decoder into one of its
panicking cases, every trailing token that fails to decode is dropped
and every decodable token is retained in arrival order, with no error
surfaced. -/
theorem c6_lenient_fields (t1 t2 : List Nat) (toks : List (List Nat)) (n s : List Nat)
    (hn : reNameFind t1 = some n) (hs : reSeqFind t2 = some s)
    (hp : ∀ t ∈ toks, (OptField.parseR t).isOk = true) :
    segmentParseR (t1 :: t2 :: toks) = .ok (some ⟨n, s, toks.filterMap decodeOpt⟩) := by
  simp [segmentParseR, parse_name, parse_sequence, hn, hs,
    optFieldsParseR_eq_of_no_panic toks hp, PResult.map]

/-- Witness for the amended claim C6 at a concrete segment line: the
undecodable middle token xy is dropped, the two integer fields are
kept in order. -/
theorem c6_lenient_fields_witness :
    segmentParseR [[49, 49], [65, 67, 67, 84], [76, 78, 58, 105, 58, 53],
        [120, 121], [82, 67, 58, 105, 58, 51]]
      = .ok (some ⟨[49, 49], [65, 67, 67, 84],
          [⟨(76, 78), .Int 5⟩, ⟨(82, 67), .Int 3⟩]⟩) := by
  have h := c6_lenient_fields [49, 49] [65, 67, 67, 84]
    [[76, 78, 58, 105, 58, 53], [120, 121], [82, 67, 58, 105, 58, 51]]
    [49, 49] [65, 67, 67, 84] (by decide) (by decide) (by decide)
  rw [h]
  decide

/-- Claim C7, counterexample: the i-typed token AB:i:9x has non-digit
content in its value, yet decoding succeeds with the value 9 because
RE_INT matches unanchored; the claim says such a token must fail to
decode. -/
theorem c7_counterexample :
    OptField.parseR [65, 66, 58, 105, 58, 57, 120] = .ok (some ⟨(65, 66), .Int 9⟩)
      ∧ [57, 120].all isDigit = false := by
  decide

/-- Claim C7 as amended: for an i-typed token with a valid tag, the
value is matched unanchored: the leftmost substring of the form
optional sign plus digits is parsed as a 64-bit signed integer, and
decoding fails exactly when no such substring exists or the matched
substring overflows the 64-bit signed range; other non-digit content
around the match does not cause failure. -/
theorem c7_int_grammar (t0 t1 : Nat) (contents : List Nat)
    (h0 : isAlpha t0 = true) (h1 : isAlphaNum t1 = true) :
    OptField.parseR (t0 :: t1 :: 58 :: 105 :: 58 :: contents)
      = .ok (((reIntFind contents).bind parseI64).map
          (fun n => (⟨(t0, t1), .Int n⟩ : OptField))) := by
  simp only [OptField.parseR, List.length_cons, List.get?, List.take, List.drop]
  have hlen2 : ¬ (contents.length + 1 + 1 + 1 + 1 + 1 < 2) := by omega
  have hlen5 : ¬ (contents.length + 1 + 1 + 1 + 1 + 1 < 5) := by omega
  rw [if_neg hlen2, if_neg hlen5]
  cases hf : reIntFind contents with
  | none => simp [hf, dispatchVal, parseFinish]
  | some m =>
    cases hp : parseI64 m with
    | none => simp [hf, hp, dispatchVal, parseFinish]
    | some n =>
      simp [hf, hp, dispatchVal, parseFinish, OptField.newR, OptField.tagR,
        h0, h1, PResult.map]

/-- Witness for the amended claim C7 at the concrete token AB:i:12. -/
theorem c7_int_grammar_witness :
    OptField.parseR [65, 66, 58, 105, 58, 49, 50] = .ok (some ⟨(65, 66), .Int 12⟩) := by
  have h := c7_int_grammar 65 66 [49, 50] (by decide) (by decide)
  rw [h]
  decide

/-- Claim C5 as amended: a header line parses successfully exactly
when its first token decodes as a Z-typed optional field of any valid
tag (the tag is not compared against the version tag), the payload of
that field becoming the version and the remaining tokens the optional
store; a missing first token, an undecodable first token or a non-Z
value yields no header, and a produced header always carries a
version. -/
theorem c5_header_grammar (input : List (List Nat)) :
    (input = [] → headerParseR input = .ok none)
    ∧ (∀ t rest tg v opts, input = t :: rest →
        OptField.parseR t = .ok (some ⟨tg, .Z v⟩) →
        optFieldsParseR rest = .ok opts →
        headerParseR input = .ok (some ⟨some v, opts⟩))
    ∧ (∀ t rest f opts, input = t :: rest →
        OptField.parseR t = .ok (some f) → (∀ v, f.value ≠ .Z v) →
        optFieldsParseR rest = .ok opts →
        headerParseR input = .ok none)
    ∧ (∀ t rest, input = t :: rest → OptField.parseR t = .ok none →
        headerParseR input = .ok none)
    ∧ (∀ h, headerParseR input = .ok (some h) → h.version.isSome = true) := by
  refine ⟨?_, ?_, ?_, ?_, ?_⟩
  · intro h; subst h; rfl
  · intro t rest tg v opts hin ht hrest
    subst hin
    simp [headerParseR, ht, hrest]
  · intro t rest f opts hin ht hfz hrest
    subst hin
    cases hv : f.value with
    | Z v => exact absurd hv (hfz v)
    | A c => simp [headerParseR, ht, hrest, hv]
    | Int i => simp [headerParseR, ht, hrest, hv]
    | Float x => simp [headerParseR, ht, hrest, hv]
    | J s => simp [headerParseR, ht, hrest, hv]
    | H xs => simp [headerParseR, ht, hrest, hv]
    | BInt xs => simp [headerParseR, ht, hrest, hv]
    | BFloat xs => simp [headerParseR, ht, hrest, hv]
  · intro t rest hin ht
    subst hin
    simp [headerParseR, ht]
  · intro h hok
    cases input with
    | nil => simp [headerParseR] at hok
    | cons t rest =>
      cases hpt : OptField.parseR t with
      | panic k =>
        rw [show headerParseR (t :: rest) = .panic k by simp [headerParseR, hpt]] at hok
        exact absurd hok (by simp)
      | ok o =>
        cases o with
        | none =>
          rw [show headerParseR (t :: rest) = .ok none by simp [headerParseR, hpt]] at hok
          exact absurd hok (by simp)
        | some version =>
          cases hrest : optFieldsParseR rest with
          | panic k =>
            rw [show headerParseR (t :: rest) = .panic k by
              simp [headerParseR, hpt, hrest]] at hok
            exact absurd hok (by simp)
          | ok opts =>
            cases hv : version.value with
            | Z v =>
              rw [show headerParseR (t :: rest) = .ok (some ⟨some v, opts⟩) by
                simp [headerParseR, hpt, hrest, hv]] at hok
              simp only [PResult.ok.injEq, Option.some.injEq] at hok
              rw [← hok]
              rfl
            | A c =>
              rw [show headerParseR (t :: rest) = .ok none by
                simp [headerParseR, hpt, hrest, hv]] at hok
              exact absurd hok (by simp)
            | Int i =>
              rw [show headerParseR (t :: rest) = .ok none by
                simp [headerParseR, hpt, hrest, hv]] at hok
              exact absurd hok (by simp)
            | Float x =>
              rw [show headerParseR (t :: rest) = .ok none by
                simp [headerParseR, hpt, hrest, hv]] at hok
              exact absurd hok (by simp)
            | J s =>
              rw [show headerParseR (t :: rest) = .ok none by
                simp [headerParseR, hpt, hrest, hv]] at hok
              exact absurd hok (by simp)
            | H xs =>
              rw [show headerParseR (t :: rest) = .ok none by
                simp [headerParseR, hpt, hrest, hv]] at hok
              exact absurd hok (by simp)
            | BInt xs =>
              rw [show headerParseR (t :: rest) = .ok none by
                simp [headerParseR, hpt, hrest, hv]] at hok
              exact absurd hok (by simp)
            | BFloat xs =>
              rw [show headerParseR (t :: rest) = .ok none by
                simp [headerParseR, hpt, hrest, hv]] at hok
              exact absurd hok (by simp)

/-- Witness for the amended claim C5 at the concrete token CD:Z:y: the
tag CD is accepted even though it is not the version tag. -/
theorem c5_header_grammar_witness :
    headerParseR [[67, 68, 58, 90, 58, 121]] = .ok (some ⟨some [121], []⟩) := by
  exact (c5_header_grammar [[67, 68, 58, 90, 58, 121]]).2.1
    [67, 68, 58, 90, 58, 121] [] (67, 68) [121] [] rfl (by decide) (by decide)

theorem tagR_panic_is_assert (t : List Nat) (k : PanicKind)
    (h : OptField.tagR t = .panic k) : k = .tagAssert := by
  rcases t with _ | ⟨a, _ | ⟨b, _ | ⟨c, r⟩⟩⟩ <;> simp only [OptField.tagR] at h
  · injection h with h1; exact h1.symm
  · injection h with h1; exact h1.symm
  · split at h
    · split at h
      · exact absurd h (by simp)
      · injection h with h1; exact h1.symm
    · injection h with h1; exact h1.symm
  · injection h with h1; exact h1.symm

theorem parseFinish_ne_unknown (o_tag : List Nat) (o_val : PResult (Option OptFieldVal))
    (h : o_val ≠ .panic .unknownType) :
    parseFinish o_tag o_val ≠ .panic .unknownType := by
  cases o_val with
  | panic k => simpa [parseFinish] using h
  | ok o =>
    cases o with
    | none => simp [parseFinish]
    | some v =>
      simp only [parseFinish, OptField.newR]
      cases htag : OptField.tagR o_tag with
      | ok tg => simp [PResult.map]
      | panic k =>
        have hk := tagR_panic_is_assert o_tag k htag
        subst hk
        simp [PResult.map]

theorem dispatchVal_ne_unknown (o_type : Nat) (cs : List Nat)
    (hmem : o_type ∈ [65, 105, 102, 90, 74, 72, 66]) :
    dispatchVal o_type cs ≠ .panic .unknownType := by
  fin_cases hmem <;>
    first
      | (simp [dispatchVal]; done)
      | (simp only [dispatchVal]
         cases cs with
         | nil => simp
         | cons first rest =>
           split
           · simp
           · split <;> simp)

/-- Claim C8: the unknown-type panic arm of the value dispatch in
OptField::parse is dead code: no input whatsoever can make the parse
reach it, because the membership check on the type byte already
returns before the dispatch for any byte outside AifZJHB. -/
theorem c8_dead_arm_unreachable (input : List Nat) :
    OptField.parseR input ≠ .panic .unknownType := by
  unfold OptField.parseR
  split
  · simp
  · cases hg : input.get? 3 with
    | none => simp
    | some o_type =>
      dsimp only
      split
      case isTrue hmem =>
        split
        case isTrue => simp
        case isFalse =>
          exact parseFinish_ne_unknown _ _ (dispatchVal_ne_unknown _ _ hmem)
      case isFalse => simp

/-- Claim C9: constructing an optional field through OptField::tag or
OptField::new panics exactly when the tag bytes are not two bytes with
an alphabetic first byte and an alphanumeric second byte; for every
valid tag both constructors succeed and return the two tag bytes
unchanged. -/
theorem c9_tag_invariant (t : List Nat) (v : OptFieldVal) :
    OptField.tagR t
        = (if validTagBytes t then .ok (t.headD 0, (t.drop 1).headD 0)
           else .panic .tagAssert)
      ∧ OptField.newR t v
        = (if validTagBytes t then .ok ⟨(t.headD 0, (t.drop 1).headD 0), v⟩
           else .panic .tagAssert) := by
  rcases t with _ | ⟨a, _ | ⟨b, _ | ⟨c, r⟩⟩⟩ <;>
    simp only [OptField.tagR, OptField.newR, validTagBytes, PResult.map,
      List.headD, List.drop] <;>
    first
      | (simp; done)
      | (by_cases ha : isAlpha a <;> by_cases hb : isAlphaNum b <;>
          simp [ha, hb, PResult.map])

/-- Claim C10: parse_name and parse_sequence match their patterns
unanchored: a leading byte outside the allowed first-character class
is skipped and the search continues in the rest of the token, a whole
token inside the class is returned in full, and in particular a name
token starting with a star parses to the remainder instead of
failing. -/
theorem c10_unanchored_matching :
    (∀ c t, nameStartB c = false → reNameFind (c :: t) = reNameFind t)
    ∧ (∀ c t, c ≠ 42 → seqCharB c = false → reSeqFind (c :: t) = reSeqFind t)
    ∧ (∀ c t, nameStartB c = true → (∀ b ∈ t, isPrintable b = true) →
        reNameFind (c :: t) = some (c :: t))
    ∧ parse_name [[42, 97, 98, 99]] = some ([97, 98, 99], []) := by
  refine ⟨?_, ?_, ?_, by decide⟩
  · intro c t h
    simp [reNameFind, h]
  · intro c t h42 h
    simp [reSeqFind, h42, h]
  · intro c t hc hall
    simp [reNameFind, hc, takeWhile_of_all t hall]

/-- Witness for claim C10: a star byte before a name is skipped, and
a fully in-class token is returned whole. -/
theorem c10_unanchored_matching_witness :
    reNameFind (42 :: [97, 98]) = reNameFind [97, 98]
      ∧ reNameFind (49 :: [50, 51]) = some (49 :: [50, 51]) := by
  exact ⟨c10_unanchored_matching.1 42 [97, 98] (by decide),
    (c10_unanchored_matching.2.2.1) 49 [50, 51] (by decide) (by decide)⟩

end RsGfa
